import Mathlib

/-!
Shallow embedding of src/paging-multilevel-translate.py (class OS, levels = 3,
as instantiated by the main program) together with theorems settling the
frozen claims about the multi-level paging simulator.

Modelling conventions:
- Python machine-level ints are naturals; the program only ever works with
  non-negative values (addresses are drawn from randint(0, vaSize-1)).
- The random source (random.choice in findFree) is modelled by an explicit
  list of draws: each call consumes the head (default 0 when exhausted) and
  picks the free-list element at position head mod length, so every possible
  choice of a free frame corresponds to some draw list.
- Fallible operations (KeyError on a missing pid in pdbr, IndexError from
  random.choice on an empty free list) return Option, with none for failure.
- The per-process page-directory base register dict is an association list
  with overwrite-by-cons semantics.
-/

namespace OS

set_option maxRecDepth 40000

/-- Bytes per page (self.pageSize). -/
def pageSize : Nat := 32

/-- Number of physical page frames (self.physPages). -/
def physPages : Nat := 128

/-- Total bytes of physical memory (self.physMem). -/
def physMem : Nat := pageSize * physPages

/-- Number of virtual pages (self.vaPages). -/
def vaPages : Nat := 1024

/-- Size of the virtual address space in bytes (self.vaSize). -/
def vaSize : Nat := pageSize * vaPages

/-- Bits of the page offset (self.pageBits). -/
def pageBits : Nat := 5

/-- Mask for the level-0 directory index (self.L0_MASK). -/
def L0_MASK : Nat := 0xF800

/-- Shift for the level-0 directory index (self.L0_SHIFT). -/
def L0_SHIFT : Nat := 15

/-- Mask for the level-1 directory index (self.PDE_MASK). -/
def PDE_MASK : Nat := 0x07C0

/-- Shift for the level-1 directory index (self.PDE_SHIFT). -/
def PDE_SHIFT : Nat := 10

/-- Mask for the level-2 table index (self.PTE_MASK). -/
def PTE_MASK : Nat := 0x003E

/-- Shift for the level-2 table index (self.PTE_SHIFT). -/
def PTE_SHIFT : Nat := 5

/-- Mask for the byte offset within a page (self.OFFSET_MASK). -/
def OFFSET_MASK : Nat := 0x001F

/-- The mutable state of the OS simulator: the used-frame bitmap, the byte
array of simulated physical memory, and the page-directory base registers. -/
structure OSState where
  usedPages : List Nat
  memory : List Nat
  pdbr : List (Nat × Nat)
deriving DecidableEq, Repr

/-- The state right after OS.__init__: all frames free, memory zeroed,
no process roots. -/
def initState : OSState :=
  { usedPages := List.replicate physPages 0
  , memory := List.replicate physMem 0
  , pdbr := [] }

/-- Level-0 index of a virtual address or page, exactly as computed by the
source: (virtualAddr AND L0_MASK) SHR L0_SHIFT. -/
def level0Bits (va : Nat) : Nat := (va &&& L0_MASK) >>> L0_SHIFT

/-- Level-1 index, exactly as computed by the source:
(virtualAddr AND PDE_MASK) SHR PDE_SHIFT. -/
def l1Bits (va : Nat) : Nat := (va &&& PDE_MASK) >>> PDE_SHIFT

/-- Level-2 index, exactly as computed by the source:
(virtualAddr AND PTE_MASK) SHR PTE_SHIFT. -/
def l2Bits (va : Nat) : Nat := (va &&& PTE_MASK) >>> PTE_SHIFT

/-- Byte offset within a page: virtualAddr AND OFFSET_MASK. -/
def offsetBits (va : Nat) : Nat := va &&& OFFSET_MASK

/-- Byte address in memory of the level-0 entry consulted for va, given the
root frame: (pdbr SHL pageBits) + level0Bits. -/
def l0SlotAddr (root va : Nat) : Nat := (root <<< pageBits) + level0Bits va

/-- The level-1 directory frame the walk follows: low 7 bits of the level-0
entry (l0Entry AND 0x7F in the source). -/
def walkL1Page (s : OSState) (root va : Nat) : Nat :=
  s.memory.getD (l0SlotAddr root va) 0 &&& 0x7F

/-- Byte address of the level-1 entry consulted for va. -/
def l1SlotAddr (s : OSState) (root va : Nat) : Nat :=
  (walkL1Page s root va <<< pageBits) + l1Bits va

/-- The level-2 table frame the walk follows: low 7 bits of the level-1
entry. -/
def walkL2Page (s : OSState) (root va : Nat) : Nat :=
  s.memory.getD (l1SlotAddr s root va) 0 &&& 0x7F

/-- Byte address of the level-2 (leaf) entry consulted for va. -/
def l2SlotAddr (s : OSState) (root va : Nat) : Nat :=
  (walkL2Page s root va <<< pageBits) + l2Bits va

/-- The physical frame number held in the leaf entry for va. -/
def walkPfn (s : OSState) (root va : Nat) : Nat :=
  s.memory.getD (l2SlotAddr s root va) 0 &&& 0x7F

/-- Valid bit of the level-0 entry: (l0Entry AND 0x80) SHR 7. -/
def l0ValidBit (s : OSState) (root va : Nat) : Nat :=
  (s.memory.getD (l0SlotAddr root va) 0 &&& 0x80) >>> 7

/-- Valid bit of the level-1 entry. -/
def l1ValidBit (s : OSState) (root va : Nat) : Nat :=
  (s.memory.getD (l1SlotAddr s root va) 0 &&& 0x80) >>> 7

/-- Valid bit of the level-2 (leaf) entry. -/
def l2ValidBit (s : OSState) (root va : Nat) : Nat :=
  (s.memory.getD (l2SlotAddr s root va) 0 &&& 0x80) >>> 7

/-- The physical address produced on a successful walk:
(pfn SHL pageBits) OR offset. -/
def physAddrOf (s : OSState) (root va : Nat) : Nat :=
  (walkPfn s root va <<< pageBits) ||| offsetBits va

/-- The list of currently free frame indices, in increasing order: the list
comprehension in OS.findFree. -/
def freeList (s : OSState) : List Nat :=
  (List.range physPages).filter (fun i => s.usedPages.getD i 0 == 0)

/-- OS.findFree: pick a free frame (the random draw selects which one), mark
it used, return it. none models the IndexError random.choice raises on an
empty sequence (no free frame). -/
def findFree (s : OSState) (rnd : List Nat) : Option (Nat × OSState × List Nat) :=
  let fl := freeList s
  if fl.length = 0 then none
  else
    let freePage := fl.getD (rnd.headD 0 % fl.length) 0
    some (freePage, { s with usedPages := s.usedPages.set freePage 1 }, rnd.tail)

/-- Write value v into n consecutive memory bytes starting at start: the
loop body of OS.initPageDir. -/
def writeRange (m : List Nat) (start n v : Nat) : List Nat :=
  match n with
  | 0 => m
  | k + 1 => writeRange (m.set start v) (start + 1) k v

/-- OS.initPageDir: set every byte of the given frame to the invalid
sentinel 0x7F. -/
def initPageDir (s : OSState) (whichPage : Nat) : OSState :=
  { s with memory := writeRange s.memory (whichPage <<< pageBits) pageSize 0x7F }

/-- OS.translate for levels = 3 (as instantiated by the main program):
walk the three levels, returning -3, -2 or -1 on an invalid entry at level
0, 1 or 2 respectively, or the composed physical address. none models the KeyError raised
when pid has no pdbr entry. -/
def translate (s : OSState) (pid va : Nat) : Option Int :=
  match List.lookup pid s.pdbr with
  | none => none
  | some root =>
    if l0ValidBit s root va ≠ 1 then some (-3)
    else if l1ValidBit s root va ≠ 1 then some (-2)
    else if l2ValidBit s root va ≠ 1 then some (-1)
    else some (Int.ofNat (physAddrOf s root va))

/-- OS.allocVirtualPage for levels = 3: walk the three levels of the page
table for virtualPage, allocating and initializing a missing level-1 or
level-2 directory on the way, and finally write the leaf entry if it is
not already valid. none models a KeyError (unknown pid) or an exhausted
free list. -/
def allocVirtualPage (s : OSState) (rnd : List Nat) (pid virtualPage physicalPage : Nat) :
    Option (OSState × List Nat) :=
  match List.lookup pid s.pdbr with
  | none => none
  | some root =>
    let l0Addr := root <<< pageBits
    let l0Index := level0Bits virtualPage
    let l0Entry := s.memory.getD (l0Addr + l0Index) 0
    let step0 : Option (Nat × OSState × List Nat) :=
      if l0Entry &&& 0x80 = 0 then
        match findFree s rnd with
        | none => none
        | some (l1Page, s1, rnd1) =>
          let s2 := { s1 with memory := s1.memory.set (l0Addr + l0Index) (0x80 ||| l1Page) }
          some (l1Page, initPageDir s2 l1Page, rnd1)
      else some (l0Entry &&& 0x7F, s, rnd)
    match step0 with
    | none => none
    | some (l1Page, sA, rndA) =>
      let l1Addr := (l1Page <<< pageBits) + l1Bits virtualPage
      let l1Entry := sA.memory.getD l1Addr 0
      let step1 : Option (Nat × OSState × List Nat) :=
        if l1Entry &&& 0x80 = 0 then
          match findFree sA rndA with
          | none => none
          | some (l2Page, s1, rnd1) =>
            let s2 := { s1 with memory := s1.memory.set l1Addr (0x80 ||| l2Page) }
            some (l2Page, initPageDir s2 l2Page, rnd1)
        else some (l1Entry &&& 0x7F, sA, rndA)
      match step1 with
      | none => none
      | some (l2Page, sB, rndB) =>
        let l2Addr := (l2Page <<< pageBits) + l2Bits virtualPage
        if sB.memory.getD l2Addr 0 &&& 0x80 = 0 then
          some ({ sB with memory := sB.memory.set l2Addr (0x80 ||| physicalPage) }, rndB)
        else some (sB, rndB)

/-- Ghost counters for one call of allocVirtualPage: how many level-1
directories, level-2 directories and leaf mappings the call created. -/
structure AllocStats where
  nL1 : Nat
  nL2 : Nat
  nLeaf : Nat
deriving DecidableEq, Repr

/-- OS.allocVirtualPage with ghost counters: identical state transitions,
plus the number of level-1 directory allocations, level-2 directory
allocations and leaf writes performed. -/
def allocVirtualPageC (s : OSState) (rnd : List Nat) (pid virtualPage physicalPage : Nat) :
    Option (OSState × List Nat × AllocStats) :=
  match List.lookup pid s.pdbr with
  | none => none
  | some root =>
    let l0Addr := root <<< pageBits
    let l0Index := level0Bits virtualPage
    let l0Entry := s.memory.getD (l0Addr + l0Index) 0
    let step0 : Option (Nat × OSState × List Nat × Nat) :=
      if l0Entry &&& 0x80 = 0 then
        match findFree s rnd with
        | none => none
        | some (l1Page, s1, rnd1) =>
          let s2 := { s1 with memory := s1.memory.set (l0Addr + l0Index) (0x80 ||| l1Page) }
          some (l1Page, initPageDir s2 l1Page, rnd1, 1)
      else some (l0Entry &&& 0x7F, s, rnd, 0)
    match step0 with
    | none => none
    | some (l1Page, sA, rndA, c1) =>
      let l1Addr := (l1Page <<< pageBits) + l1Bits virtualPage
      let l1Entry := sA.memory.getD l1Addr 0
      let step1 : Option (Nat × OSState × List Nat × Nat) :=
        if l1Entry &&& 0x80 = 0 then
          match findFree sA rndA with
          | none => none
          | some (l2Page, s1, rnd1) =>
            let s2 := { s1 with memory := s1.memory.set l1Addr (0x80 ||| l2Page) }
            some (l2Page, initPageDir s2 l2Page, rnd1, 1)
        else some (l1Entry &&& 0x7F, sA, rndA, 0)
      match step1 with
      | none => none
      | some (l2Page, sB, rndB, c2) =>
        let l2Addr := (l2Page <<< pageBits) + l2Bits virtualPage
        if sB.memory.getD l2Addr 0 &&& 0x80 = 0 then
          some ({ sB with memory := sB.memory.set l2Addr (0x80 ||| physicalPage) }, rndB,
                ⟨c1, c2, 1⟩)
        else some (sB, rndB, ⟨c1, c2, 0⟩)

/-- The per-page loop body of OS.procAlloc, run over an explicit list of
(distinct) virtual pages: for each page, pick a free frame for its data,
then allocate the mapping. -/
def allocLoop (s : OSState) (rnd : List Nat) (pid : Nat) :
    List Nat → Option (OSState × List Nat)
  | [] => some (s, rnd)
  | vp :: rest =>
    match findFree s rnd with
    | none => none
    | some (pp, s1, rnd1) =>
      match allocVirtualPage s1 rnd1 pid vp pp with
      | none => none
      | some (s2, rnd2) => allocLoop s2 rnd2 pid rest

/-- The per-page loop of OS.procAlloc with accumulated ghost counters. -/
def allocLoopC (s : OSState) (rnd : List Nat) (pid : Nat) :
    List Nat → Option (OSState × List Nat × AllocStats)
  | [] => some (s, rnd, ⟨0, 0, 0⟩)
  | vp :: rest =>
    match findFree s rnd with
    | none => none
    | some (pp, s1, rnd1) =>
      match allocVirtualPageC s1 rnd1 pid vp pp with
      | none => none
      | some (s2, rnd2, c) =>
        match allocLoopC s2 rnd2 pid rest with
        | none => none
        | some (s3, rnd3, d) =>
          some (s3, rnd3, ⟨c.nL1 + d.nL1, c.nL2 + d.nL2, c.nLeaf + d.nLeaf⟩)

/-- OS.procAlloc, run over an explicit list of virtual pages (the source
draws numPages distinct random pages): allocate a root frame, record it in
pdbr, initialize it, then allocate each requested page. -/
def procAllocRun (s : OSState) (rnd : List Nat) (pid : Nat) (vps : List Nat) :
    Option (OSState × List Nat) :=
  match findFree s rnd with
  | none => none
  | some (pageDir, s1, rnd1) =>
    allocLoop (initPageDir { s1 with pdbr := (pid, pageDir) :: s1.pdbr } pageDir) rnd1 pid vps

/-- OS.procAlloc with accumulated ghost counters. -/
def procAllocRunC (s : OSState) (rnd : List Nat) (pid : Nat) (vps : List Nat) :
    Option (OSState × List Nat × AllocStats) :=
  match findFree s rnd with
  | none => none
  | some (pageDir, s1, rnd1) =>
    allocLoopC (initPageDir { s1 with pdbr := (pid, pageDir) :: s1.pdbr } pageDir) rnd1 pid vps

/-- A run of n successive OS.findFree calls, collecting the returned frame
indices. -/
def findFreeRun (s : OSState) (rnd : List Nat) : Nat → Option (List Nat × OSState × List Nat)
  | 0 => some ([], s, rnd)
  | n + 1 =>
    match findFree s rnd with
    | none => none
    | some (f, s1, rnd1) =>
      match findFreeRun s1 rnd1 n with
      | none => none
      | some (fs, s2, rnd2) => some (f :: fs, s2, rnd2)

/-- Number of frames currently marked used in the usedPages bitmap. -/
def usedCount (s : OSState) : Nat := s.usedPages.count 1

/-- The state after a root-only procAlloc run for pid 1 (numPages = 0),
with the draw list that always picks the first free frame: the root lands
in frame 0. -/
def demoS1 : OSState := ((procAllocRun initState [] 1 []).getD (initState, [])).1

/-- demoS1 followed by allocVirtualPage(1, 5, 9): the level-1 directory
lands in frame 1, the level-2 table in frame 2, and the leaf entry for
virtual page 5 is written into frame 2. -/
def demoS2 : OSState := ((allocVirtualPage demoS1 [] 1 5 9).getD (demoS1, [])).1

/-- The state after a procAlloc run for pid 1 with the single virtual page
4: root in frame 0, data frame 1, level-1 directory in frame 2, level-2
table in frame 3. -/
def demoS3 : OSState := ((procAllocRun initState [] 1 [4]).getD (initState, [])).1

/-- demoS2 followed by a second allocVirtualPage(1, 5, 10) for the same
virtual page: the repeated-allocation scenario of the idempotence claim. -/
def demoS4 : OSState := ((allocVirtualPage demoS2 [] 1 5 10).getD (demoS2, [])).1

/-- The state after calling procAlloc a second time for pid 1 on demoS1:
the duplicate-pid scenario. The new root lands in frame 1. -/
def demoS9 : OSState := ((procAllocRun demoS1 [] 1 []).getD (demoS1, [])).1

/-! Helper lemmas about natural-number bit operations. -/

/-- Shifting right distributes over bitwise and. -/
theorem and_shiftRight_distrib (x m k : Nat) :
    (x &&& m) >>> k = (x >>> k) &&& (m >>> k) := by
  apply Nat.eq_of_testBit_eq
  intro i
  simp [Nat.testBit_shiftRight, Nat.testBit_and]

/-- Bits above the mask width are irrelevant: anding with a mask below
2 to the k sees only the low k bits of the other operand. -/
theorem and_mask_mod_two_pow (x m k : Nat) (hm : m < 2 ^ k) :
    x &&& m = x % 2 ^ k &&& m := by
  apply Nat.eq_of_testBit_eq
  intro i
  simp only [Nat.testBit_and, Nat.testBit_mod_two_pow]
  by_cases h : i < k
  · simp [h]
  · have hmf : m.testBit i = false :=
      Nat.testBit_lt_two_pow
        (lt_of_lt_of_le hm (Nat.pow_le_pow_right (by norm_num) (Nat.le_of_not_lt h)))
    simp [h, hmf]

/-- Setting the valid bit on a 7-bit frame number leaves the frame number
recoverable by masking with 0x7F. -/
theorem or_eighty_and_low (pp : Nat) (h : pp < 128) : (0x80 ||| pp) &&& 0x7F = pp := by
  apply Nat.eq_of_testBit_eq
  intro i
  simp only [Nat.testBit_and, Nat.testBit_or]
  by_cases hi : i < 7
  · have h80 : (0x80 : Nat).testBit i = false := by
      interval_cases i <;> decide
    have h7f : (0x7F : Nat).testBit i = true := by
      interval_cases i <;> decide
    simp [h80, h7f]
  · have hpf : pp.testBit i = false :=
      Nat.testBit_lt_two_pow
        (lt_of_lt_of_le (show pp < 2 ^ 7 by omega)
          (Nat.pow_le_pow_right (by norm_num) (Nat.le_of_not_lt hi)))
    have h7f : (0x7F : Nat).testBit i = false :=
      Nat.testBit_lt_two_pow
        (lt_of_lt_of_le (show (0x7F : Nat) < 2 ^ 7 by norm_num)
          (Nat.pow_le_pow_right (by norm_num) (Nat.le_of_not_lt hi)))
    simp [hpf, h7f]

/-- An entry written as 0x80 or-ed with a frame number has its valid bit
set. -/
theorem or_eighty_valid (pp : Nat) : (0x80 ||| pp) &&& 0x80 = 0x80 := by
  apply Nat.eq_of_testBit_eq
  intro i
  simp only [Nat.testBit_and, Nat.testBit_or]
  cases h : (0x80 : Nat).testBit i <;> simp [h]

/-! Helper lemmas about lists and the frame allocator. -/

/-- Reading any position of a list is unaffected by writing 1 elsewhere,
and writing 1 at the read position can only produce 1: a position holding 1
keeps holding 1 after any set of a 1. -/
theorem getD_set_one (l : List Nat) (f i : Nat) (h : l.getD i 0 = 1) :
    (l.set f 1).getD i 0 = 1 := by
  induction l generalizing f i with
  | nil => simpa using h
  | cons a as ih =>
    cases f with
    | zero =>
      cases i with
      | zero => simp
      | succ i => simpa using h
    | succ f =>
      cases i with
      | zero => simpa using h
      | succ i => simpa using ih f i (by simpa using h)

/-- Writing 1 at an in-range position makes that position read 1. -/
theorem getD_set_self_one (l : List Nat) (f : Nat) (hf : f < l.length) :
    (l.set f 1).getD f 0 = 1 := by
  induction l generalizing f with
  | nil => simp at hf
  | cons a as ih =>
    cases f with
    | zero => simp
    | succ f => simpa using ih f (by simpa using hf)

/-- Writing 1 over an in-range position holding 0 increases the count of
ones by exactly one. -/
theorem count_set_one (l : List Nat) (f : Nat) (hf : f < l.length) (h0 : l.getD f 0 = 0) :
    (l.set f 1).count 1 = l.count 1 + 1 := by
  induction l generalizing f with
  | nil => simp at hf
  | cons a as ih =>
    cases f with
    | zero =>
      have ha : a = 0 := by simpa using h0
      subst ha
      simp [List.count_cons]
    | succ f =>
      have hrec := ih f (by simpa using hf) (by simpa using h0)
      simp only [List.set, List.count_cons, hrec]
      omega

/-- An in-range getD with default 0 returns an element of the list. -/
theorem getD_mem (l : List Nat) (i : Nat) (h : i < l.length) : l.getD i 0 ∈ l := by
  induction l generalizing i with
  | nil => simp at h
  | cons a as ih =>
    cases i with
    | zero => simp
    | succ i => exact List.mem_cons_of_mem a (ih i (by simpa using h))

/-- Membership in the free list means: a frame index below physPages whose
used flag is 0. -/
theorem freeList_mem (s : OSState) (f : Nat) (hf : f ∈ freeList s) :
    f < physPages ∧ s.usedPages.getD f 0 = 0 := by
  unfold freeList at hf
  rw [List.mem_filter] at hf
  exact ⟨List.mem_range.mp hf.1, by simpa using hf.2⟩

/-- What a successful findFree does: it returns a frame that was free, marks
exactly that frame used, and touches nothing else. -/
theorem findFree_spec (s : OSState) (rnd : List Nat) (f : Nat) (s1 : OSState)
    (rnd1 : List Nat) (h : findFree s rnd = some (f, s1, rnd1)) :
    f < physPages ∧ s.usedPages.getD f 0 = 0 ∧
    s1.usedPages = s.usedPages.set f 1 ∧ s1.memory = s.memory ∧ s1.pdbr = s.pdbr := by
  simp only [findFree] at h
  by_cases hlen : (freeList s).length = 0
  · rw [if_pos hlen] at h
    cases h
  · rw [if_neg hlen] at h
    simp only [Option.some.injEq, Prod.mk.injEq] at h
    obtain ⟨hf, hs, hrnd⟩ := h
    have hidx : rnd.headD 0 % (freeList s).length < (freeList s).length :=
      Nat.mod_lt _ (Nat.pos_of_ne_zero hlen)
    have hmem : f ∈ freeList s := by
      rw [← hf]
      exact getD_mem _ _ hidx
    obtain ⟨hf1, hf2⟩ := freeList_mem s f hmem
    subst hs
    exact ⟨hf1, hf2, congrArg (fun x => s.usedPages.set x 1) hf, rfl, rfl⟩

/-- A successful findFree increments the used count by one and preserves the
bitmap length, the memory and the pdbr. -/
theorem findFree_count (s : OSState) (rnd : List Nat) (f : Nat) (s1 : OSState)
    (rnd1 : List Nat) (h : findFree s rnd = some (f, s1, rnd1))
    (hlen : s.usedPages.length = physPages) :
    usedCount s1 = usedCount s + 1 ∧ s1.usedPages.length = physPages ∧
    s1.memory = s.memory ∧ s1.pdbr = s.pdbr := by
  obtain ⟨hf, h0, hset, hm, hp⟩ := findFree_spec s rnd f s1 rnd1 h
  refine ⟨?_, ?_, hm, hp⟩
  · rw [usedCount, usedCount, hset]
    exact count_set_one _ _ (by omega) h0
  · rw [hset]
    simpa using hlen

/-- A successful findFree keeps every already-used frame used, and never
returns such a frame. -/
theorem findFree_preserve_one (s : OSState) (rnd : List Nat) (f : Nat) (s1 : OSState)
    (rnd1 : List Nat) (h : findFree s rnd = some (f, s1, rnd1)) (g : Nat)
    (hg : s.usedPages.getD g 0 = 1) :
    s1.usedPages.getD g 0 = 1 ∧ f ≠ g := by
  obtain ⟨hf, h0, hset, hm, hp⟩ := findFree_spec s rnd f s1 rnd1 h
  constructor
  · rw [hset]
    exact getD_set_one _ _ _ hg
  · intro hfg
    rw [hfg, hg] at h0
    cases h0

/-- initPageDir only writes memory: the pdbr is untouched. -/
theorem initPageDir_pdbr (s : OSState) (w : Nat) : (initPageDir s w).pdbr = s.pdbr := by
  simp [initPageDir]

/-- initPageDir only writes memory: the used bitmap is untouched. -/
theorem initPageDir_used (s : OSState) (w : Nat) :
    (initPageDir s w).usedPages = s.usedPages := by
  simp [initPageDir]

/-- initPageDir only writes memory: the used count is untouched. -/
theorem usedCount_initPageDir (s : OSState) (w : Nat) :
    usedCount (initPageDir s w) = usedCount s := by
  rw [usedCount, usedCount, initPageDir_used]

/-- One directory-level step of allocVirtualPage (the shape shared by the
level-0 and level-1 code): if it returns, the pdbr is unchanged and every
frame already marked used stays used. -/
theorem stepFacts (s : OSState) (rnd : List Nat) (e addr p : Nat) (sA : OSState) (rA : List Nat)
    (h : (if e &&& 0x80 = 0 then
            match findFree s rnd with
            | none => none
            | some (pg, s1, rnd1) =>
              some (pg, initPageDir { s1 with memory := s1.memory.set addr (0x80 ||| pg) } pg,
                rnd1)
          else some (e &&& 0x7F, s, rnd)) = some (p, sA, rA)) :
    sA.pdbr = s.pdbr ∧ ∀ g, s.usedPages.getD g 0 = 1 → sA.usedPages.getD g 0 = 1 := by
  by_cases hc : e &&& 0x80 = 0
  · rw [if_pos hc] at h
    cases hff : findFree s rnd with
    | none => rw [hff] at h; cases h
    | some t =>
      obtain ⟨pg, sF, rF⟩ := t
      rw [hff] at h
      simp only [Option.some.injEq, Prod.mk.injEq] at h
      obtain ⟨hp, hsA, hrA⟩ := h
      obtain ⟨hlt, h0, hset, hm, hpd⟩ := findFree_spec s rnd pg sF rF hff
      subst hsA
      constructor
      · rw [initPageDir_pdbr]
        exact hpd
      · intro g hg
        rw [initPageDir_used]
        show sF.usedPages.getD g 0 = 1
        rw [hset]
        exact getD_set_one _ _ _ hg
  · rw [if_neg hc] at h
    simp only [Option.some.injEq, Prod.mk.injEq] at h
    obtain ⟨hp, hsA, hrA⟩ := h
    subst hsA
    exact ⟨rfl, fun g hg => hg⟩

/-- One directory-level step of allocVirtualPageC: the used count grows by
exactly the reported counter, the bitmap length is preserved, and the pdbr
is unchanged. -/
theorem stepFactsC (s : OSState) (rnd : List Nat) (e addr p c : Nat) (sA : OSState)
    (rA : List Nat)
    (h : (if e &&& 0x80 = 0 then
            match findFree s rnd with
            | none => none
            | some (pg, s1, rnd1) =>
              some (pg, initPageDir { s1 with memory := s1.memory.set addr (0x80 ||| pg) } pg,
                rnd1, 1)
          else some (e &&& 0x7F, s, rnd, 0)) = some (p, sA, rA, c))
    (hlen : s.usedPages.length = physPages) :
    usedCount sA = usedCount s + c ∧ sA.usedPages.length = physPages ∧ sA.pdbr = s.pdbr := by
  by_cases hc : e &&& 0x80 = 0
  · rw [if_pos hc] at h
    cases hff : findFree s rnd with
    | none => rw [hff] at h; cases h
    | some t =>
      obtain ⟨pg, sF, rF⟩ := t
      rw [hff] at h
      simp only [Option.some.injEq, Prod.mk.injEq] at h
      obtain ⟨hp, hsA, hrA, hcc⟩ := h
      obtain ⟨hcnt, hlen1, hm, hpd⟩ := findFree_count s rnd pg sF rF hff hlen
      subst hsA
      subst hcc
      refine ⟨?_, ?_, ?_⟩
      · rw [usedCount_initPageDir]
        show usedCount sF = usedCount s + 1
        exact hcnt
      · rw [initPageDir_used]
        exact hlen1
      · rw [initPageDir_pdbr]
        exact hpd
  · rw [if_neg hc] at h
    simp only [Option.some.injEq, Prod.mk.injEq] at h
    obtain ⟨hp, hsA, hrA, hcc⟩ := h
    subst hsA
    subst hcc
    exact ⟨rfl, hlen, rfl⟩

/-- A successful allocVirtualPage never touches the pdbr and keeps every
already-used frame used. -/
theorem allocVirtualPage_preserve (s : OSState) (rnd : List Nat) (pid vp pp : Nat)
    (s1 : OSState) (rnd1 : List Nat)
    (h : allocVirtualPage s rnd pid vp pp = some (s1, rnd1)) :
    s1.pdbr = s.pdbr ∧ ∀ g, s.usedPages.getD g 0 = 1 → s1.usedPages.getD g 0 = 1 := by
  cases hlk : List.lookup pid s.pdbr with
  | none =>
    simp only [allocVirtualPage, hlk] at h
    exact Option.noConfusion h
  | some root =>
    simp only [allocVirtualPage, hlk] at h
    split at h
    · exact Option.noConfusion h
    · rename_i l1P sA rA heq
      obtain ⟨hpdA, hpresA⟩ := stepFacts _ _ _ _ _ _ _ heq
      split at h
      · exact Option.noConfusion h
      · rename_i l2P sB rB heq2
        obtain ⟨hpdB, hpresB⟩ := stepFacts _ _ _ _ _ _ _ heq2
        split at h <;>
        · simp only [Option.some.injEq, Prod.mk.injEq] at h
          obtain ⟨hA, hB⟩ := h
          subst hA
          exact ⟨by rw [← hpdA, ← hpdB], fun g hg => hpresB g (hpresA g hg)⟩

/-- A successful allocLoop run never touches the pdbr and keeps every
already-used frame used. -/
theorem allocLoop_preserve (pid : Nat) (vps : List Nat) :
    ∀ (s : OSState) (rnd : List Nat) (s2 : OSState) (r2 : List Nat),
    allocLoop s rnd pid vps = some (s2, r2) →
    s2.pdbr = s.pdbr ∧ ∀ g, s.usedPages.getD g 0 = 1 → s2.usedPages.getD g 0 = 1 := by
  induction vps with
  | nil =>
    intro s rnd s2 r2 h
    simp only [allocLoop, Option.some.injEq, Prod.mk.injEq] at h
    obtain ⟨hA, hB⟩ := h
    subst hA
    exact ⟨rfl, fun g hg => hg⟩
  | cons vp rest ih =>
    intro s rnd s2 r2 h
    simp only [allocLoop] at h
    cases hff : findFree s rnd with
    | none => rw [hff] at h; cases h
    | some t =>
      obtain ⟨pp, sF, rF⟩ := t
      rw [hff] at h
      simp only at h
      cases hav : allocVirtualPage sF rF pid vp pp with
      | none => rw [hav] at h; cases h
      | some t2 =>
        obtain ⟨sV, rV⟩ := t2
        rw [hav] at h
        simp only at h
        obtain ⟨hpdV, hpresV⟩ := allocVirtualPage_preserve sF rF pid vp pp sV rV hav
        obtain ⟨hpdL, hpresL⟩ := ih sV rV s2 r2 h
        refine ⟨by rw [hpdL, hpdV, (findFree_spec s rnd pp sF rF hff).2.2.2.2], fun g hg => ?_⟩
        have hgF : sF.usedPages.getD g 0 = 1 :=
          (findFree_preserve_one s rnd pp sF rF hff g hg).1
        exact hpresL g (hpresV g hgF)

/-- A successful allocVirtualPageC grows the used count by exactly its
level-1 plus level-2 counters, preserves the bitmap length and the pdbr. -/
theorem allocVirtualPageC_spec (s : OSState) (rnd : List Nat) (pid vp pp : Nat)
    (s1 : OSState) (rnd1 : List Nat) (c : AllocStats)
    (h : allocVirtualPageC s rnd pid vp pp = some (s1, rnd1, c))
    (hlen : s.usedPages.length = physPages) :
    usedCount s1 = usedCount s + c.nL1 + c.nL2 ∧ s1.usedPages.length = physPages := by
  cases hlk : List.lookup pid s.pdbr with
  | none =>
    simp only [allocVirtualPageC, hlk] at h
    exact Option.noConfusion h
  | some root =>
    simp only [allocVirtualPageC, hlk] at h
    split at h
    · exact Option.noConfusion h
    · rename_i l1P sA rA c1 heq
      obtain ⟨hcA, hlenA, hpdA⟩ := stepFactsC _ _ _ _ _ _ _ _ heq hlen
      split at h
      · exact Option.noConfusion h
      · rename_i l2P sB rB c2 heq2
        obtain ⟨hcB, hlenB, hpdB⟩ := stepFactsC _ _ _ _ _ _ _ _ heq2 hlenA
        split at h <;>
        · simp only [Option.some.injEq, Prod.mk.injEq] at h
          obtain ⟨hA, hB, hC⟩ := h
          subst hA
          subst hC
          constructor
          · show usedCount sB = usedCount s + c1 + c2
            omega
          · exact hlenB

/-- A successful allocLoopC run grows the used count by the accumulated
level-1 and level-2 counters plus one data frame per requested page, and
preserves the bitmap length. -/
theorem allocLoopC_spec (pid : Nat) (vps : List Nat) :
    ∀ (s : OSState) (rnd : List Nat) (s3 : OSState) (r3 : List Nat) (c : AllocStats),
    allocLoopC s rnd pid vps = some (s3, r3, c) → s.usedPages.length = physPages →
    usedCount s3 = usedCount s + c.nL1 + c.nL2 + vps.length ∧
    s3.usedPages.length = physPages := by
  induction vps with
  | nil =>
    intro s rnd s3 r3 c h hlen
    simp only [allocLoopC, Option.some.injEq, Prod.mk.injEq] at h
    obtain ⟨hA, hB, hC⟩ := h
    subst hA
    subst hC
    exact ⟨by simp, hlen⟩
  | cons vp rest ih =>
    intro s rnd s3 r3 c h hlen
    simp only [allocLoopC] at h
    cases hff : findFree s rnd with
    | none => rw [hff] at h; cases h
    | some t =>
      obtain ⟨pp, sF, rF⟩ := t
      rw [hff] at h
      simp only at h
      cases hav : allocVirtualPageC sF rF pid vp pp with
      | none => rw [hav] at h; cases h
      | some t2 =>
        obtain ⟨sV, rV, cV⟩ := t2
        rw [hav] at h
        simp only at h
        cases hlp : allocLoopC sV rV pid rest with
        | none => rw [hlp] at h; cases h
        | some t3 =>
          obtain ⟨sR, rR, cR⟩ := t3
          rw [hlp] at h
          simp only [Option.some.injEq, Prod.mk.injEq] at h
          obtain ⟨hA, hB, hC⟩ := h
          subst hA
          subst hC
          obtain ⟨hcF, hlenF, hmF, hpdF⟩ := findFree_count s rnd pp sF rF hff hlen
          obtain ⟨hcV, hlenV⟩ := allocVirtualPageC_spec sF rF pid vp pp sV rV cV hav hlenF
          obtain ⟨hcR, hlenR⟩ := ih sV rV sR rR cR hlp hlenV
          refine ⟨?_, hlenR⟩
          show usedCount sR
            = usedCount s + (cV.nL1 + cR.nL1) + (cV.nL2 + cR.nL2) + (vp :: rest).length
          simp only [List.length_cons]
          omega

/-- No frame returned by a run of findFree calls was marked used at the
start of the run, and every used frame stays used. -/
theorem findFreeRun_avoids (n : Nat) :
    ∀ (s : OSState) (rnd : List Nat) (fs : List Nat) (s2 : OSState) (r2 : List Nat),
    findFreeRun s rnd n = some (fs, s2, r2) →
    ∀ g, s.usedPages.getD g 0 = 1 → g ∉ fs := by
  induction n with
  | zero =>
    intro s rnd fs s2 r2 h g hg
    simp only [findFreeRun, Option.some.injEq, Prod.mk.injEq] at h
    obtain ⟨hA, hB, hC⟩ := h
    subst hA
    simp
  | succ n ih =>
    intro s rnd fs s2 r2 h g hg
    simp only [findFreeRun] at h
    cases hff : findFree s rnd with
    | none => rw [hff] at h; cases h
    | some t =>
      obtain ⟨f, sF, rF⟩ := t
      rw [hff] at h
      simp only at h
      cases hrun : findFreeRun sF rF n with
      | none => rw [hrun] at h; cases h
      | some t2 =>
        obtain ⟨fs1, s21, r21⟩ := t2
        rw [hrun] at h
        simp only [Option.some.injEq, Prod.mk.injEq] at h
        obtain ⟨hA, hB, hC⟩ := h
        subst hA
        obtain ⟨hpres, hneq⟩ := findFree_preserve_one s rnd f sF rF hff g hg
        have hnotin : g ∉ fs1 := ih sF rF fs1 s21 r21 hrun g hpres
        intro hmem
        rcases List.mem_cons.mp hmem with h1 | h2
        · exact hneq h1.symm
        · exact hnotin h2

/-- The frames returned by a run of n findFree calls are pairwise distinct,
and there are n of them. -/
theorem findFreeRun_nodup (n : Nat) :
    ∀ (s : OSState) (rnd : List Nat) (fs : List Nat) (s2 : OSState) (r2 : List Nat),
    s.usedPages.length = physPages → findFreeRun s rnd n = some (fs, s2, r2) →
    fs.Nodup ∧ fs.length = n := by
  induction n with
  | zero =>
    intro s rnd fs s2 r2 hlen h
    simp only [findFreeRun, Option.some.injEq, Prod.mk.injEq] at h
    obtain ⟨hA, hB, hC⟩ := h
    subst hA
    simp
  | succ n ih =>
    intro s rnd fs s2 r2 hlen h
    simp only [findFreeRun] at h
    cases hff : findFree s rnd with
    | none => rw [hff] at h; cases h
    | some t =>
      obtain ⟨f, sF, rF⟩ := t
      rw [hff] at h
      simp only at h
      cases hrun : findFreeRun sF rF n with
      | none => rw [hrun] at h; cases h
      | some t2 =>
        obtain ⟨fs1, s21, r21⟩ := t2
        rw [hrun] at h
        simp only [Option.some.injEq, Prod.mk.injEq] at h
        obtain ⟨hA, hB, hC⟩ := h
        subst hA
        obtain ⟨hflt, hf0, hset, hmemeq, hpdbr⟩ := findFree_spec s rnd f sF rF hff
        have hlenF : sF.usedPages.length = physPages := by
          rw [hset]
          simpa using hlen
        have hgf : sF.usedPages.getD f 0 = 1 := by
          rw [hset]
          exact getD_set_self_one _ _ (by omega)
        obtain ⟨hnd, hln⟩ := ih sF rF fs1 s21 r21 hlenF hrun
        have hnot : f ∉ fs1 := findFreeRun_avoids n sF rF fs1 s21 r21 hrun f hgf
        exact ⟨List.nodup_cons.mpr ⟨hnot, hnd⟩, by simp [hln]⟩

/-! Theorems settling the claims. -/

/-- Claim C1 (code bug): the spec requires that after allocVirtualPage(1, 5, 9)
in a fresh process, translate(1, 5*32+7) returns 295; the code instead
returns -1 (a level-2 fault), because allocVirtualPage writes the leaf entry
at index bit 5 of the virtual page while translate reads the leaf at index
bit 5 of the virtual address (bit 0 of the page): the configured shift
amounts do not extract the fields the two walks would need to agree on. -/
theorem C1_alloc_then_translate_faults :
    translate demoS2 1 (5 * 32 + 7) = some (-1) ∧
    translate demoS2 1 (5 * 32 + 7) ≠ some (Int.ofNat (9 * 32 + 7)) := by decide

/-- Claim C2 (counterexample): at the in-range virtual address 2048, the
level-0 index the code computes, (va AND 0xF800) SHR 15, is 0, while bits
15..11 of the address form the value 1; so the computed index field is not
the stated bit field. -/
theorem C2_shift_mismatch_counterexample :
    level0Bits 2048 = 0 ∧ 2048 / 2 ^ 11 % 2 ^ 5 = 1 ∧ 2048 < vaSize := by decide

/-- Claim C2 (amended): with the configured (mask, shift) pairs, the level-0
index equals 0 for every in-range address (it is bit 15, which in-range
addresses never set), the level-1 index equals bit 10, the level-2 index
equals bit 5, and the offset equals bits 4..0; each level index is a 1-bit
value, not the 5-bit field the claim states. -/
theorem C2_index_fields_amended (va : Nat) (hva : va < vaSize) :
    level0Bits va = 0 ∧
    l1Bits va = va / 2 ^ 10 % 2 ∧
    l2Bits va = va / 2 ^ 5 % 2 ∧
    offsetBits va = va % 2 ^ 5 := by
  refine ⟨?_, ?_, ?_, ?_⟩
  · have hle : va &&& L0_MASK ≤ va := Nat.and_le_left
    have hlt : va &&& L0_MASK < 2 ^ 15 := lt_of_le_of_lt hle (by
      have : vaSize = 2 ^ 15 := by decide
      omega)
    rw [level0Bits, L0_SHIFT, Nat.shiftRight_eq_div_pow]
    exact Nat.div_eq_of_lt hlt
  · rw [l1Bits, and_shiftRight_distrib]
    have hm : PDE_MASK >>> PDE_SHIFT = 1 := by decide
    rw [hm, Nat.and_one_is_mod, PDE_SHIFT, Nat.shiftRight_eq_div_pow]
  · rw [l2Bits, and_shiftRight_distrib]
    have hm : PTE_MASK >>> PTE_SHIFT = 1 := by decide
    rw [hm, Nat.and_one_is_mod, PTE_SHIFT, Nat.shiftRight_eq_div_pow]
  · rw [offsetBits]
    have hm : OFFSET_MASK = 2 ^ 5 - 1 := by decide
    rw [hm, Nat.and_pow_two_sub_one_eq_mod]

/-- Claim C2 witness: the amended field equations instantiated at the
concrete in-range address 167. -/
theorem C2_index_fields_amended_witness :
    level0Bits 167 = 0 ∧
    l1Bits 167 = 167 / 2 ^ 10 % 2 ∧
    l2Bits 167 = 167 / 2 ^ 5 % 2 ∧
    offsetBits 167 = 167 % 2 ^ 5 :=
  C2_index_fields_amended 167 (by decide)

/-- Claim C3 (code bug): after a procAlloc run that allocates only virtual
page 4 (mapped to data frame 1), translating an address of virtual page 2,
which was never passed to allocVirtualPage, does not fault: it returns the
physical address 32, because the walk distinguishes only bit 5 and bit 0
of the page number, so page 2 aliases page 4 all the way to the leaf. -/
theorem C3_unmapped_page_translates :
    translate demoS3 1 (2 * 32) = some (Int.ofNat 32) ∧ (0 : Int) ≤ 32 := by decide

/-- Claim C5 (confirmed): with a root installed, translate returns -3 when
the level-0 entry is invalid, -2 when level 0 is valid but level 1 is not,
-1 when levels 0 and 1 are valid but the leaf is not, the composed physical
address (a non-negative value) when all three are valid, and no negative
value other than -3, -2, -1 is ever returned. -/
theorem C5_fault_levels (s : OSState) (pid va root : Nat)
    (hr : List.lookup pid s.pdbr = some root) :
    (l0ValidBit s root va ≠ 1 → translate s pid va = some (-3)) ∧
    (l0ValidBit s root va = 1 → l1ValidBit s root va ≠ 1 → translate s pid va = some (-2)) ∧
    (l0ValidBit s root va = 1 → l1ValidBit s root va = 1 → l2ValidBit s root va ≠ 1 →
      translate s pid va = some (-1)) ∧
    (l0ValidBit s root va = 1 → l1ValidBit s root va = 1 → l2ValidBit s root va = 1 →
      translate s pid va = some (Int.ofNat (physAddrOf s root va))) ∧
    (∀ z : Int, translate s pid va = some z → z < 0 → z = -3 ∨ z = -2 ∨ z = -1) := by
  unfold translate
  rw [hr]
  refine ⟨fun h0 => by simp [h0], fun h0 h1 => by simp [h0, h1],
    fun h0 h1 h2 => by simp [h0, h1, h2], fun h0 h1 h2 => by simp [h0, h1, h2], ?_⟩
  intro z hz hneg
  simp only [] at hz
  split_ifs at hz with a b c
  · injection hz with h
    omega
  · injection hz with h
    omega
  · injection hz with h
    omega
  · injection hz with h
    have hnn : (0 : Int) ≤ Int.ofNat (physAddrOf s root va) := Int.ofNat_nonneg _
    omega

/-- Claim C5 witness: in the demo state, the address 32768 has bit 15 set,
so its level-0 slot (index 1 of the root directory) is invalid and
translate returns -3. -/
theorem C5_fault_levels_witness : translate demoS2 1 32768 = some (-3) :=
  (C5_fault_levels demoS2 1 32768 0 (by decide)).1 (by decide)

/-- Claim C8 (counterexample): the out-of-range address 65536 is not
rejected: in the demo state with virtual page 4 mapped, it translates to
the ordinary physical address 32 (the same result as address 0), because
translate masks the address instead of range-checking it. -/
theorem C8_no_range_check_counterexample :
    translate demoS3 1 65536 = some (Int.ofNat 32) ∧
    translate demoS3 1 65536 = translate demoS3 1 0 ∧
    vaSize ≤ 65536 := by decide

/-- Claim C8 (amended): translate performs no range check at all; every
address is reduced by the bit masks, so an address is translated exactly
like its low 16 bits: out-of-range addresses silently wrap into the walk
rather than being rejected with a distinct error outcome. -/
theorem C8_wraps_amended (s : OSState) (pid va : Nat) :
    translate s pid va = translate s pid (va % 2 ^ 16) := by
  have h0 : level0Bits va = level0Bits (va % 2 ^ 16) := by
    rw [level0Bits, level0Bits, and_mask_mod_two_pow va L0_MASK 16 (by decide)]
  have h1 : l1Bits va = l1Bits (va % 2 ^ 16) := by
    rw [l1Bits, l1Bits, and_mask_mod_two_pow va PDE_MASK 16 (by decide)]
  have h2 : l2Bits va = l2Bits (va % 2 ^ 16) := by
    rw [l2Bits, l2Bits, and_mask_mod_two_pow va PTE_MASK 16 (by decide)]
  have h3 : offsetBits va = offsetBits (va % 2 ^ 16) := by
    rw [offsetBits, offsetBits, and_mask_mod_two_pow va OFFSET_MASK 16 (by decide)]
  simp only [translate, l0ValidBit, l1ValidBit, l2ValidBit, physAddrOf, walkPfn,
    l2SlotAddr, walkL2Page, l1SlotAddr, walkL1Page, l0SlotAddr, h0, h1, h2, h3]

/-- Claim C10 (confirmed): when pid has a root below PHYS_PAGES, every byte
index translate computes into memory is below PHYS_PAGES times PAGE_SIZE,
for every virtual address whatsoever: each level index produced by the
configured mask/shift pairs is at most 1, and each followed frame pointer
is masked to 7 bits. -/
theorem C10_translate_in_bounds (s : OSState) (pid va root : Nat)
    (hr : List.lookup pid s.pdbr = some root) (hroot : root < physPages) :
    l0SlotAddr root va < physMem ∧
    l1SlotAddr s root va < physMem ∧
    l2SlotAddr s root va < physMem ∧
    level0Bits va ≤ 1 ∧ l1Bits va ≤ 1 ∧ l2Bits va ≤ 1 ∧
    walkL1Page s root va ≤ 0x7F ∧ walkL2Page s root va ≤ 0x7F := by
  have hb0 : level0Bits va ≤ 1 := by
    rw [level0Bits, and_shiftRight_distrib]
    exact le_trans Nat.and_le_right (by decide)
  have hb1 : l1Bits va ≤ 1 := by
    rw [l1Bits, and_shiftRight_distrib]
    exact le_trans Nat.and_le_right (by decide)
  have hb2 : l2Bits va ≤ 1 := by
    rw [l2Bits, and_shiftRight_distrib]
    exact le_trans Nat.and_le_right (by decide)
  have hw1 : walkL1Page s root va ≤ 0x7F := Nat.and_le_right
  have hw2 : walkL2Page s root va ≤ 0x7F := Nat.and_le_right
  have hpm : physMem = 4096 := by decide
  have hpp : physPages = 128 := by decide
  refine ⟨?_, ?_, ?_, hb0, hb1, hb2, hw1, hw2⟩
  · rw [l0SlotAddr, Nat.shiftLeft_eq]
    rw [hpp] at hroot
    rw [hpm]
    have : (2 : Nat) ^ pageBits = 32 := by decide
    rw [this]
    omega
  · rw [l1SlotAddr, Nat.shiftLeft_eq]
    rw [hpm]
    have : (2 : Nat) ^ pageBits = 32 := by decide
    rw [this]
    omega
  · rw [l2SlotAddr, Nat.shiftLeft_eq]
    rw [hpm]
    have : (2 : Nat) ^ pageBits = 32 := by decide
    rw [this]
    omega

/-- Claim C10 witness: the bounds instantiated in the demo state for pid 1
(root frame 0) at address 167. -/
theorem C10_translate_in_bounds_witness :
    l0SlotAddr 0 167 < physMem ∧
    l1SlotAddr demoS2 0 167 < physMem ∧
    l2SlotAddr demoS2 0 167 < physMem ∧
    level0Bits 167 ≤ 1 ∧ l1Bits 167 ≤ 1 ∧ l2Bits 167 ≤ 1 ∧
    walkL1Page demoS2 0 167 ≤ 0x7F ∧ walkL2Page demoS2 0 167 ≤ 0x7F :=
  C10_translate_in_bounds demoS2 1 167 0 (by decide) (by decide)

/-- Claim C4 (counterexample): after allocVirtualPage(1, 5, 9) and then
allocVirtualPage(1, 5, 10), the leaf entry (byte 64, in the level-2 table
frame) does keep pp1 = 9, and the second call changes nothing; but
translating an address of virtual page 5 does not yield the pp1-based
physical address 295 -- it faults at level 2, because translate reads a
different leaf slot than the one allocVirtualPage wrote. -/
theorem C4_translate_not_pp1_counterexample :
    (allocVirtualPage demoS2 [] 1 5 10).isSome = true ∧
    demoS4.memory.getD 64 0 = 0x80 ||| 9 ∧
    translate demoS4 1 (5 * 32 + 7) = some (-1) ∧
    translate demoS4 1 (5 * 32 + 7) ≠ some (Int.ofNat (9 * 32 + 7)) := by decide

/-- Claim C4 (amended): when every slot on the walk for vp is already valid
(as is the case right after a first allocVirtualPage established the
mapping with pp1), a second allocVirtualPage with any pp2 returns with the
state completely unchanged -- first write wins -- so the leaf entry keeps
holding pp1, and translate returns exactly what it returned before the
second call (which, because of the index mismatch between the two walks,
need not be the pp1-based address). -/
theorem C4_first_write_wins_amended (s : OSState) (rnd : List Nat) (pid vp pp1 pp2 root : Nat)
    (hr : List.lookup pid s.pdbr = some root)
    (h0 : s.memory.getD (l0SlotAddr root vp) 0 &&& 0x80 ≠ 0)
    (h1 : s.memory.getD (l1SlotAddr s root vp) 0 &&& 0x80 ≠ 0)
    (hleaf : s.memory.getD (l2SlotAddr s root vp) 0 = 0x80 ||| pp1)
    (hpp1 : pp1 < 128) :
    allocVirtualPage s rnd pid vp pp2 = some (s, rnd) ∧
    s.memory.getD (l2SlotAddr s root vp) 0 &&& 0x7F = pp1 := by
  simp only [l0SlotAddr] at h0
  simp only [l1SlotAddr, walkL1Page, l0SlotAddr] at h1
  have h2 : s.memory.getD
      ((s.memory.getD
          ((s.memory.getD (root <<< pageBits + level0Bits vp) 0 &&& 0x7F) <<< pageBits
            + l1Bits vp) 0 &&& 0x7F) <<< pageBits + l2Bits vp) 0 &&& 0x80 ≠ 0 := by
    have hv : s.memory.getD (l2SlotAddr s root vp) 0 &&& 0x80 = 0x80 := by
      rw [hleaf]
      exact or_eighty_valid pp1
    simp only [l2SlotAddr, walkL2Page, l1SlotAddr, walkL1Page, l0SlotAddr] at hv
    omega
  constructor
  · simp only [allocVirtualPage, hr, if_neg h0, if_neg h1, if_neg h2]
  · rw [hleaf]
    exact or_eighty_and_low pp1 hpp1

/-- Claim C4 witness: the amended statement instantiated right after
allocVirtualPage(1, 5, 9) in a fresh process: the repeated call with
physical page 10 is a complete no-op and the leaf keeps frame 9. -/
theorem C4_first_write_wins_amended_witness :
    allocVirtualPage demoS2 [] 1 5 10 = some (demoS2, []) ∧
    demoS2.memory.getD (l2SlotAddr demoS2 0 5) 0 &&& 0x7F = 9 :=
  C4_first_write_wins_amended demoS2 [] 1 5 9 10 0 (by decide) (by decide) (by decide)
    (by decide) (by decide)

/-- Claim C6 (counterexample): the run that creates a root for pid 1 and
then allocates the two distinct virtual pages 0 and 2 allocates one
level-1 directory, one level-2 directory, and writes only one leaf mapping
(page 2 collides with page 0 in the buggy walk), yet marks 5 frames used:
1 (root) + 1 (L1) + 1 (L2) + 1 (mapped pages) = 4 is not the used count,
because the data frame drawn for page 2 is marked used but never mapped. -/
theorem C6_used_count_counterexample :
    (procAllocRunC initState [] 1 [0, 2]).map (fun t => (usedCount t.1, t.2.2))
      = some (5, ⟨1, 1, 1⟩) ∧ 5 ≠ 1 + 1 + 1 + 1 := by decide

/-- Claim C6 (amended): after a full allocation run from the fresh state,
the number of frames marked used equals 1 (root) + the number of level-1
directories allocated + the number of level-2 directories allocated + the
number of pages requested (one data frame is drawn per requested page and
marked used even when its leaf mapping is skipped because the leaf slot was
already valid); the number of actually mapped pages can be smaller. -/
theorem C6_used_count_amended (rnd : List Nat) (pid : Nat) (vps : List Nat) :
    match procAllocRunC initState rnd pid vps with
    | none => True
    | some (s3, _, c) => usedCount s3 = 1 + c.nL1 + c.nL2 + vps.length := by
  cases hrun : procAllocRunC initState rnd pid vps with
  | none => trivial
  | some t3 =>
    obtain ⟨s3, r3, c⟩ := t3
    show usedCount s3 = 1 + c.nL1 + c.nL2 + vps.length
    simp only [procAllocRunC] at hrun
    cases hff : findFree initState rnd with
    | none => rw [hff] at hrun; cases hrun
    | some t =>
      obtain ⟨pd, sF, rF⟩ := t
      rw [hff] at hrun
      simp only at hrun
      obtain ⟨hcF, hlenF, hmF, hpdF⟩ := findFree_count initState rnd pd sF rF hff (by decide)
      have hlenM :
          (initPageDir { sF with pdbr := (pid, pd) :: sF.pdbr } pd).usedPages.length
            = physPages := by
        rw [initPageDir_used]
        exact hlenF
      have hcM : usedCount (initPageDir { sF with pdbr := (pid, pd) :: sF.pdbr } pd)
          = usedCount sF := by
        rw [usedCount_initPageDir]
        rfl
      obtain ⟨hc3, hlen3⟩ := allocLoopC_spec pid vps _ rF s3 r3 c hrun hlenM
      rw [hcM] at hc3
      have h0 : usedCount initState = 0 := by decide
      omega

/-- Claim C7 (confirmed): any run of successive findFree calls (there are
no frees in this design) returns pairwise distinct frame indices: each call
picks a frame that is unused at that moment and marks it used before
returning, so no frame can be returned twice. -/
theorem C7_findFree_distinct (s : OSState) (rnd : List Nat) (n : Nat)
    (hlen : s.usedPages.length = physPages) :
    match findFreeRun s rnd n with
    | none => True
    | some (fs, _, _) => fs.Nodup ∧ fs.length = n := by
  cases hrun : findFreeRun s rnd n with
  | none => trivial
  | some t =>
    obtain ⟨fs, s2, r2⟩ := t
    show fs.Nodup ∧ fs.length = n
    exact findFreeRun_nodup n s rnd fs s2 r2 hlen hrun

/-- Claim C7 witness: three findFree calls from the fresh state return the
distinct frames 0, 1, 2. -/
theorem C7_findFree_distinct_witness :
    ([0, 1, 2] : List Nat).Nodup ∧ ([0, 1, 2] : List Nat).length = 3 :=
  C7_findFree_distinct initState [] 3 (by decide)

/-- Claim C9 (counterexample): pid 1 already has root frame 0 in demoS1,
yet a second procAlloc run for pid 1 succeeds (there is no DuplicateProcess
check anywhere) and silently rebinds pdbr[1] to the freshly drawn frame 1;
the old root frame stays marked used, i.e. it is leaked. -/
theorem C9_overwrite_counterexample :
    demoS1.pdbr = [(1, 0)] ∧
    (procAllocRun demoS1 [] 1 []).isSome = true ∧
    List.lookup 1 demoS9.pdbr = some 1 ∧
    demoS9.usedPages.getD 0 0 = 1 := by decide

/-- Claim C9 (amended): creating a process root for a pid that already has
one does not fail: procAlloc unconditionally draws a fresh frame (distinct
from the old root, which is marked used) and overwrites the pdbr binding
with it, leaking the old tree; no DuplicateProcess error exists in the
code. -/
theorem C9_overwrite_amended (s : OSState) (rnd : List Nat) (pid : Nat) (vps : List Nat)
    (r0 : Nat) (hr0 : List.lookup pid s.pdbr = some r0)
    (hused : s.usedPages.getD r0 0 = 1) :
    match procAllocRun s rnd pid vps with
    | none => True
    | some (s2, _) =>
      (List.lookup pid s2.pdbr).isSome = true ∧
      List.lookup pid s2.pdbr ≠ some r0 ∧
      s2.usedPages.getD r0 0 = 1 := by
  cases hrun : procAllocRun s rnd pid vps with
  | none => trivial
  | some t =>
    obtain ⟨s2, r2⟩ := t
    show (List.lookup pid s2.pdbr).isSome = true ∧
      List.lookup pid s2.pdbr ≠ some r0 ∧ s2.usedPages.getD r0 0 = 1
    simp only [procAllocRun] at hrun
    cases hff : findFree s rnd with
    | none => rw [hff] at hrun; cases hrun
    | some tf =>
      obtain ⟨f, sF, rF⟩ := tf
      rw [hff] at hrun
      simp only at hrun
      obtain ⟨hpdL, hpresL⟩ := allocLoop_preserve pid vps _ rF s2 r2 hrun
      obtain ⟨hpres1, hfneq⟩ := findFree_preserve_one s rnd f sF rF hff r0 hused
      have hpdMid : (initPageDir { sF with pdbr := (pid, f) :: sF.pdbr } f).pdbr
          = (pid, f) :: sF.pdbr := by
        rw [initPageDir_pdbr]
      have husedMid :
          (initPageDir { sF with pdbr := (pid, f) :: sF.pdbr } f).usedPages.getD r0 0 = 1 := by
        rw [initPageDir_used]
        exact hpres1
      have hlook : List.lookup pid s2.pdbr = some f := by
        rw [hpdL, hpdMid]
        simp [List.lookup]
      refine ⟨by rw [hlook]; rfl, ?_, hpresL r0 husedMid⟩
      rw [hlook]
      intro hcon
      exact hfneq (Option.some.inj hcon)

/-- Claim C9 witness: the amended statement instantiated on the duplicate
procAlloc run for pid 1: the binding moves to frame 1, away from the old
root 0, which stays used. -/
theorem C9_overwrite_amended_witness :
    (List.lookup 1 demoS9.pdbr).isSome = true ∧
    List.lookup 1 demoS9.pdbr ≠ some 0 ∧
    demoS9.usedPages.getD 0 0 = 1 :=
  C9_overwrite_amended demoS1 [] 1 [] 0 (by decide) (by decide)

end OS
